import Mathlib

/-!
Verification development for the VERSHIELD-AI repository.

The repository sources contain documentation, a Next.js frontend and Terraform
infrastructure.  The request-serving core described by the specification
(Semantic Cache, Retrieval Index, Model Router, Usage Tracker, Pipeline
Coordinator) has no implementation in the sources, so those components are
modelled here directly from the specification's words; the frontend handlers
(the analyze proxy route and the capture page's two-step validation flow) are
shallowly embedded from their TypeScript sources.
-/

namespace VeriShield

/-! ## Semantic Cache (modelled from the spec, §3 and §4.1) -/

/-- Modelled from the spec: the Semantic Cache component (§4.1) is absent from the
repository sources, so its data model is reconstructed from the spec.  A
`CacheEntry` stores the query embedding, normalized query text, response payload,
creation time, ttl and hit count (§3). -/
structure CacheEntry where
  queryEmbedding : List ℚ
  normalizedQueryText : String
  responsePayload : String
  createdAt : Nat
  ttl : Nat
  hitCount : Nat
deriving DecidableEq

/-- Modelled from the spec: an entry is visible for lookup only while
`now < createdAt + ttl` (§3). -/
def CacheEntry.live (e : CacheEntry) (now : Nat) : Bool :=
  decide (now < e.createdAt + e.ttl)

/-- Modelled from the spec: the Semantic Cache state — its entry set, the
configured similarity threshold, and the rolling hit/miss counters (§4.1). -/
structure SemanticCache where
  entries : List CacheEntry
  threshold : ℚ
  hits : Nat
  misses : Nat
deriving DecidableEq

/-- Modelled from the spec: the default similarity threshold, 0.15 cosine
distance (§4.1). -/
def defaultSimilarityThreshold : ℚ := 3 / 20

/-- Modelled from the spec: result of `lookup` — hit flag, response, and the
matched distance (§4.1). -/
structure LookupResult where
  hit : Bool
  response : Option String
  distance : Option ℚ
deriving DecidableEq

/-- Key type for ordering lookup candidates lexicographically. -/
abbrev CandKey : Type := ℚ ×ₗ ((OrderDual ℕ) ×ₗ (OrderDual ℕ))

/-- Preference key for lookup candidates: ascending distance, ties broken by
highest `hitCount`, then most recent `createdAt` (§4.1), encoded into a
lexicographic linear order. -/
def candKey (c : ℚ × CacheEntry) : CandKey :=
  toLex (c.1, toLex (OrderDual.toDual c.2.hitCount, OrderDual.toDual c.2.createdAt))

/-- The candidate preference relation: `a` is at least as preferred as `b`. -/
def candLe (a b : ℚ × CacheEntry) : Prop := candKey a ≤ candKey b

instance : DecidableRel candLe :=
  fun a b => inferInstanceAs (Decidable (candKey a ≤ candKey b))

instance : IsTotal (ℚ × CacheEntry) candLe :=
  ⟨fun a b => le_total (candKey a) (candKey b)⟩

instance : IsTrans (ℚ × CacheEntry) candLe :=
  ⟨fun _ _ _ h1 h2 => le_trans h1 h2⟩

instance : IsRefl (ℚ × CacheEntry) candLe :=
  ⟨fun a => le_refl (candKey a)⟩

/-- Modelled from the spec: the best live candidate for a query — entries are
scored by distance to the query embedding (the spec's cosine distance, supplied
as the abstract function `dist`), and the most preferred candidate under
`candLe` is selected (§4.1). -/
def bestCandidate (dist : List ℚ → List ℚ → ℚ) (entries : List CacheEntry)
    (qe : List ℚ) (now : Nat) : Option (ℚ × CacheEntry) :=
  (List.insertionSort candLe
    ((entries.filter (fun e => e.live now)).map
      (fun e => (dist qe e.queryEmbedding, e)))).head?

/-- Modelled from the spec: `lookup(queryEmbedding, queryText)` computes the
distance to every live (non-expired) entry and returns the entry with the
smallest distance if it is below the configured threshold, ties broken by
highest `hitCount` then most recent `createdAt`; no match below threshold means
`hit = false`.  Counters and the winning entry's `hitCount` are updated (§4.1). -/
def SemanticCache.lookup (dist : List ℚ → List ℚ → ℚ) (c : SemanticCache)
    (qe : List ℚ) (_qt : String) (now : Nat) : LookupResult × SemanticCache :=
  match bestCandidate dist c.entries qe now with
  | none => (⟨false, none, none⟩, { c with misses := c.misses + 1 })
  | some best =>
    if best.1 < c.threshold then
      (⟨true, some best.2.responsePayload, some best.1⟩,
       { c with
           hits := c.hits + 1,
           entries := c.entries.map (fun e =>
             if e = best.2 then { e with hitCount := e.hitCount + 1 } else e) })
    else (⟨false, none, none⟩, { c with misses := c.misses + 1 })

/-- Modelled from the spec: `stats()` exposes `hitRate`, the rolling hit rate
`hits / (hits + misses)` since construction or last reset (§4.1). -/
def SemanticCache.hitRate (c : SemanticCache) : ℚ :=
  (c.hits : ℚ) / ((c.hits : ℚ) + (c.misses : ℚ))

/-- A single lookup request: embedding, query text, and the time it occurs. -/
structure CacheQuery where
  embedding : List ℚ
  text : String
  time : Nat

/-- Modelled from the spec: a sequence of lookups threaded through the cache
state, collecting each lookup's result (§8, hit-rate property). -/
def runLookups (dist : List ℚ → List ℚ → ℚ) (c : SemanticCache) :
    List CacheQuery → List LookupResult × SemanticCache
  | [] => ([], c)
  | q :: qs =>
    let rc := SemanticCache.lookup dist c q.embedding q.text q.time
    let rest := runLookups dist rc.2 qs
    (rc.1 :: rest.1, rest.2)

/-! ## Retrieval Index (modelled from the spec, §3 and §4.2) -/

/-- Modelled from the spec: the Retrieval Index component (§4.2) is absent from
the repository sources, so `RetrievalDocument` is reconstructed from the spec
(§3): a unique id (stable, used as tie-break key), an embedding, the chunk text
(modelled as its list of terms) and source metadata. -/
structure RetrievalDocument where
  id : Nat
  embedding : List ℚ
  chunkTerms : List String
  sourceMetadata : List (String × String)
deriving DecidableEq

/-- Modelled from the spec: the Retrieval Index state — the configured embedding
dimension and the owned document set (§3, §4.2). -/
structure RetrievalIndex where
  dim : Nat
  docs : List RetrievalDocument
deriving DecidableEq

/-- Modelled from the spec: the error for an invalid embedding shape (§7). -/
inductive IndexError
| dimensionMismatch
deriving DecidableEq

/-- Modelled from the spec: `index(document)` upserts by `id`; an embedding of
mismatched dimension fails with a `DimensionMismatch` error and does not mutate
the index (§4.2).  The result pairs the index after the call with the error, if
any. -/
def RetrievalIndex.indexDoc (idx : RetrievalIndex) (d : RetrievalDocument) :
    RetrievalIndex × Option IndexError :=
  if d.embedding.length = idx.dim then
    ({ idx with docs := d :: idx.docs.filter (fun x => x.id != d.id) }, none)
  else (idx, some IndexError.dimensionMismatch)

/-- Modelled from the spec: the default hybrid weight, `alpha = 0.7` (§4.2). -/
def defaultAlpha : ℚ := 7 / 10

/-- Modelled from the spec: the lexical relevance of a query to a chunk — a
term-frequency ranking normalized to the interval from 0 to 1, here the
fraction of query terms occurring in the chunk (§4.2). -/
def lexicalScore (queryTerms docTerms : List String) : ℚ :=
  if queryTerms = [] then 0
  else ((queryTerms.filter (fun t => docTerms.contains t)).length : ℚ)
        / (queryTerms.length : ℚ)

/-- Modelled from the spec: the hybrid score
`alpha * cosineSimilarity + (1 - alpha) * lexicalScore`, with the spec's cosine
similarity supplied as the abstract function `sim` (§4.2). -/
def hybridScore (alpha : ℚ) (sim : List ℚ → List ℚ → ℚ) (qe : List ℚ)
    (qts : List String) (d : RetrievalDocument) : ℚ :=
  alpha * sim qe d.embedding + (1 - alpha) * lexicalScore qts d.chunkTerms

/-- Key type for ranking search results lexicographically. -/
abbrev DocKey : Type := (OrderDual ℚ) ×ₗ ℕ

/-- Ranking key: descending hybrid score, ties broken by ascending id (§4.2). -/
def docKey (alpha : ℚ) (sim : List ℚ → List ℚ → ℚ) (qe : List ℚ)
    (qts : List String) (d : RetrievalDocument) : DocKey :=
  toLex (OrderDual.toDual (hybridScore alpha sim qe qts d), d.id)

/-- The ranking relation: `a` ranks at least as high as `b`. -/
def rankLe (alpha : ℚ) (sim : List ℚ → List ℚ → ℚ) (qe : List ℚ)
    (qts : List String) (a b : RetrievalDocument) : Prop :=
  docKey alpha sim qe qts a ≤ docKey alpha sim qe qts b

instance rankLeDecidable (alpha : ℚ) (sim : List ℚ → List ℚ → ℚ) (qe : List ℚ)
    (qts : List String) : DecidableRel (rankLe alpha sim qe qts) :=
  fun a b => inferInstanceAs
    (Decidable (docKey alpha sim qe qts a ≤ docKey alpha sim qe qts b))

instance rankLeTotal (alpha : ℚ) (sim : List ℚ → List ℚ → ℚ) (qe : List ℚ)
    (qts : List String) : IsTotal RetrievalDocument (rankLe alpha sim qe qts) :=
  ⟨fun a b => le_total (docKey alpha sim qe qts a) (docKey alpha sim qe qts b)⟩

instance rankLeTrans (alpha : ℚ) (sim : List ℚ → List ℚ → ℚ) (qe : List ℚ)
    (qts : List String) : IsTrans RetrievalDocument (rankLe alpha sim qe qts) :=
  ⟨fun _ _ _ h1 h2 => le_trans h1 h2⟩

instance rankLeRefl (alpha : ℚ) (sim : List ℚ → List ℚ → ℚ) (qe : List ℚ)
    (qts : List String) : IsRefl RetrievalDocument (rankLe alpha sim qe qts) :=
  ⟨fun a => le_refl (docKey alpha sim qe qts a)⟩

/-- Modelled from the spec: `search(queryEmbedding, queryText, topK)` scores
every stored document with the hybrid score, orders by descending score with
ties broken by ascending id, and returns the top `topK` documents with their
scores (§4.2). -/
def RetrievalIndex.search (alpha : ℚ) (sim : List ℚ → List ℚ → ℚ)
    (idx : RetrievalIndex) (qe : List ℚ) (qts : List String) (topK : Nat) :
    List (RetrievalDocument × ℚ) :=
  ((List.insertionSort (rankLe alpha sim qe qts) idx.docs).take topK).map
    (fun d => (d, hybridScore alpha sim qe qts d))

/-! ## Semantic Cache single-flight (modelled from the spec, §4.1 and §5) -/

/-- Caller identity for the single-flight protocol. -/
abbrev CallerId := Nat

/-- Logical single-flight key. -/
abbrev FlightKey := List Int

/-- Modelled from the spec: the logical key for `singleFlight`, derived from
the embedding by quantizing each coordinate to the similarity-threshold
bucket (§4.1). -/
def quantize (emb : List ℚ) (thr : ℚ) : FlightKey :=
  emb.map (fun x => ⌊x / thr⌋)

instance {ε α : Type} [DecidableEq ε] [DecidableEq α] :
    DecidableEq (Except ε α) := fun a b =>
  match a, b with
  | Except.ok x, Except.ok y => decidable_of_iff (x = y) (by simp)
  | Except.error x, Except.error y => decidable_of_iff (x = y) (by simp)
  | Except.ok _, Except.error _ => isFalse (by simp)
  | Except.error _, Except.ok _ => isFalse (by simp)

/-- A completed single-flight computation: its key, its single terminal result
(the same result or error for all awaiting callers), and the callers that
awaited it. -/
structure CompletedFlight where
  key : FlightKey
  result : Except String String
  waiters : List CallerId
deriving DecidableEq

/-- Modelled from the spec: the state of the single-flight registry — the
in-flight computations with their waiter lists, the completed computations,
the results delivered to callers, and a log carrying one entry per invocation
of the underlying compute callback (§4.1, §5). -/
structure FlightState where
  inflight : List (FlightKey × List CallerId)
  completed : List CompletedFlight
  delivered : List (CallerId × Except String String)
  computeLog : List FlightKey
deriving DecidableEq

/-- The single-flight registry before any call. -/
def emptyFlightState : FlightState := ⟨[], [], [], []⟩

/-- Events of the single-flight protocol: a caller invokes `singleFlight` with
its query embedding, or the in-flight computation for a key completes with a
terminal result. -/
inductive FlightEvent
| call (c : CallerId) (emb : List ℚ)
| finish (k : FlightKey) (r : Except String String)
deriving DecidableEq

/-- Modelled from the spec: one interleaved step of the single-flight registry.
A call whose key is already in flight joins that key's waiter list and awaits
(no new compute); a call for an idle key launches the compute callback
(logging the invocation) and awaits; a finish delivers the single terminal
result to every waiter of that key (§4.1, §5). -/
def flightStep (thr : ℚ) (s : FlightState) : FlightEvent → FlightState
  | FlightEvent.call c emb =>
    if (s.inflight.find? (fun p => decide (p.1 = quantize emb thr))).isSome then
      { s with inflight := s.inflight.map (fun p =>
          if p.1 = quantize emb thr then (p.1, c :: p.2) else p) }
    else
      { s with
          inflight := (quantize emb thr, [c]) :: s.inflight,
          computeLog := quantize emb thr :: s.computeLog }
  | FlightEvent.finish k r =>
    match s.inflight.find? (fun p => decide (p.1 = k)) with
    | some p =>
        { inflight := s.inflight.filter (fun q => !decide (q.1 = k)),
          completed := ⟨k, r, p.2⟩ :: s.completed,
          delivered := p.2.map (fun c => (c, r)) ++ s.delivered,
          computeLog := s.computeLog }
    | none => s

/-- An execution of the single-flight protocol from the empty registry. -/
def runFlight (thr : ℚ) (evs : List FlightEvent) : FlightState :=
  evs.foldl (flightStep thr) emptyFlightState

/-- The single-flight invariant: in-flight keys are unique; the compute log
counts exactly one invocation per completed computation of a key plus one for
its currently open window, if any; and every waiter of a completed computation
received that computation's single result. -/
def FlightInv (s : FlightState) : Prop :=
  s.inflight.Pairwise (fun p q => p.1 ≠ q.1) ∧
  (∀ k : FlightKey, s.computeLog.countP (fun x => decide (x = k))
      = (s.completed.filter (fun w => decide (w.key = k))).length
        + (if (s.inflight.find? (fun p => decide (p.1 = k))).isSome
           then 1 else 0)) ∧
  (∀ w ∈ s.completed, ∀ c ∈ w.waiters, (c, w.result) ∈ s.delivered)

/-! ## Model Router (modelled from the spec, §3 and §4.3) -/

/-- Modelled from the spec: the Model Router component (§4.3) is absent from the
repository sources, so `ModelDescriptor` is reconstructed from the spec (§3):
name, ordinal cost/capability tier, per-token costs, capability tags and
context size.  Health is kept in the router state, not on the descriptor. -/
structure ModelDescriptor where
  name : String
  tier : Nat
  costPerInputToken : ℚ
  costPerOutputToken : ℚ
  capabilities : List String
  maxContextTokens : Nat
deriving DecidableEq

/-- Modelled from the spec: the enumerated cause of a routing decision (§3). -/
inductive RoutingReason
| classifiedTier
| budgetDowngrade
| healthFailover
deriving DecidableEq

/-- Modelled from the spec: a routing decision — chosen model, ordered fallback
chain, and reason (§3). -/
structure RoutingDecision where
  chosenModel : ModelDescriptor
  fallbackChain : List ModelDescriptor
  reason : RoutingReason
deriving DecidableEq

/-- Modelled from the spec: per-model circuit-breaker bookkeeping — consecutive
failure count and the time the circuit last opened (§4.3). -/
structure ModelHealth where
  consecutiveFailures : Nat
  openedAt : Option Nat
deriving DecidableEq

/-- Modelled from the spec: the circuit opens after N consecutive failures,
default 3 (§4.3). -/
def failureThreshold : Nat := 3

/-- Modelled from the spec: the cooldown window, default 30s, in
milliseconds (§4.3). -/
def cooldownMs : Nat := 30000

/-- Modelled from the spec: the router's health view, one record per model
name (§3). -/
structure RouterState where
  health : String → ModelHealth

/-- Modelled from the spec: on timeout or provider error the model's
consecutive-failure count increments and, once it reaches the threshold, the
circuit opens at the failure time (§4.3). -/
def recordFailure (st : RouterState) (m : String) (now : Nat) : RouterState :=
  ⟨fun m' =>
    if m' = m then
      ⟨(st.health m).consecutiveFailures + 1,
        if failureThreshold ≤ (st.health m).consecutiveFailures + 1 then some now
        else (st.health m).openedAt⟩
    else st.health m'⟩

/-- Modelled from the spec: a model's circuit is open (the model unhealthy)
from the time it opened until the cooldown elapses, after which it
half-opens (§4.3). -/
def circuitOpen (st : RouterState) (m : String) (now : Nat) : Bool :=
  match (st.health m).openedAt with
  | some t => decide (now < t + cooldownMs)
  | none => false

/-- Modelled from the spec: the budget state consumed by `select` — remaining
budget and the period budget ceiling (§4.3, §4.4). -/
structure BudgetState where
  remaining : ℚ
  periodBudget : ℚ
deriving DecidableEq

/-- Modelled from the spec: remaining budget below the configured fraction
(default 10%) of the period budget, stated multiplicatively (§4.3). -/
def budgetLow (b : BudgetState) : Bool :=
  decide (b.remaining * 10 < b.periodBudget)

/-- Tier comparison ordering candidates cheapest (lowest tier) first (§4.3). -/
def tierLe (a b : ModelDescriptor) : Prop := a.tier ≤ b.tier

instance tierLeDecidable : DecidableRel tierLe :=
  fun a b => Nat.decLe a.tier b.tier

instance : IsTotal ModelDescriptor tierLe :=
  ⟨fun a b => Nat.le_total a.tier b.tier⟩

instance : IsTrans ModelDescriptor tierLe :=
  ⟨fun _ _ _ h1 h2 => Nat.le_trans h1 h2⟩

instance : IsRefl ModelDescriptor tierLe :=
  ⟨fun a => Nat.le_refl a.tier⟩

/-- Modelled from the spec: the candidates considered by `select` — models
whose capabilities match the intent and whose circuit is not open (§4.3). -/
def selectCandidates (models : List ModelDescriptor) (st : RouterState)
    (now : Nat) (intent : String) : List ModelDescriptor :=
  models.filter
    (fun d => !circuitOpen st d.name now && d.capabilities.contains intent)

/-- Modelled from the spec: `select(intentTag, budgetState)` filters models by
capability match and health, orders candidates ascending by tier (cheapest
first) unless the intent requires a higher tier, and under a low budget forces
the lowest-cost capable model with reason budget-downgrade (§4.3). -/
def select (models : List ModelDescriptor) (st : RouterState) (now : Nat)
    (intent : String) (requiredTier : String → Nat) (b : BudgetState) :
    Option RoutingDecision :=
  if budgetLow b then
    match List.insertionSort tierLe (selectCandidates models st now intent) with
    | [] => none
    | chosen :: rest => some ⟨chosen, rest, RoutingReason.budgetDowngrade⟩
  else
    match List.insertionSort tierLe
        ((selectCandidates models st now intent).filter
          (fun d => decide (requiredTier intent ≤ d.tier)))
      ++ List.insertionSort tierLe
        ((selectCandidates models st now intent).filter
          (fun d => decide (d.tier < requiredTier intent))) with
    | [] => none
    | chosen :: rest => some ⟨chosen, rest, RoutingReason.classifiedTier⟩

/-! ## Pipeline Coordinator (modelled from the spec, §4.3 invoke and §4.5) -/

/-- Modelled from the spec: the terminal failures returned to the caller —
router exhaustion and upstream cancellation (§4.5, §7). -/
inductive TerminalError
| allProvidersExhausted
| cancelled
deriving DecidableEq

/-- Does an `Except` hold a success value. -/
def exceptOk (r : Except TerminalError String) : Bool :=
  match r with
  | Except.ok _ => true
  | Except.error _ => false

/-- Modelled from the spec: `invoke` tries the chosen model, then each model of
the fallback chain in order; when the chain is exhausted the call fails with
`AllProvidersExhausted` (§4.3). -/
def invokeChain (attempt : ModelDescriptor → Except String String) :
    List ModelDescriptor → Except TerminalError String
  | [] => Except.error TerminalError.allProvidersExhausted
  | mdl :: rest =>
    match attempt mdl with
    | Except.ok r => Except.ok r
    | Except.error _ => invokeChain attempt rest

/-- Modelled from the spec: `invoke(decision, requestPayload)` (§4.3). -/
def invoke (d : RoutingDecision)
    (attempt : ModelDescriptor → Except String String) :
    Except TerminalError String :=
  invokeChain attempt (d.chosenModel :: d.fallbackChain)

/-- Modelled from the spec: a retrieval failure degrades silently to the
empty-context path (§4.5). -/
def degradedContext (retrievalRes : Except String (List RetrievalDocument)) :
    List RetrievalDocument :=
  match retrievalRes with
  | Except.ok docs => docs
  | Except.error _ => []

/-- Modelled from the spec: the Pipeline Coordinator — cache check, then on a
miss retrieval and classification, then model invocation with fallback.
Cache and index failures degrade silently to the cache-miss / empty-context
path; only exhaustion and cancellation are terminal (§4.5).  The attempt
function receives the retrieved context. -/
def handleRequest (cancelled : Bool)
    (cacheRes : Except String (Option String))
    (retrievalRes : Except String (List RetrievalDocument))
    (d : RoutingDecision)
    (attempt : List RetrievalDocument → ModelDescriptor → Except String String) :
    Except TerminalError String :=
  if cancelled then Except.error TerminalError.cancelled
  else
    match cacheRes with
    | Except.ok (some resp) => Except.ok resp
    | Except.ok none => invoke d (attempt (degradedContext retrievalRes))
    | Except.error _ => invoke d (attempt (degradedContext retrievalRes))

/-! ## Frontend analyze proxy route (embedded from src/unnamed/part_001) -/

/-- Outcome of the backend fetch in the analyze proxy route: the HTTP status
and the response body, readable as text and, when well-formed, as JSON
(src/unnamed/part_001, lines 12-34). -/
structure BackendResponse where
  status : Nat
  text : String
  json : Option String
deriving DecidableEq

/-- A fetch either throws or resolves with a backend response
(src/unnamed/part_001, lines 12-25 and 37). -/
inductive FetchOutcome
| threw
| resolved (r : BackendResponse)
deriving DecidableEq

/-- The Fetch API's `response.ok` flag: status in the range from 200 to 299. -/
def respOk (r : BackendResponse) : Bool :=
  decide (200 ≤ r.status) && decide (r.status < 300)

/-- The body of the proxy's response: forwarded JSON data or a JSON object
with an `error` field (src/unnamed/part_001, lines 31, 36 and 39-42). -/
inductive ProxyBody
| jsonData (data : String)
| jsonError (msg : String)
deriving DecidableEq

/-- The proxy's HTTP response: status code and body. -/
structure ProxyResponse where
  status : Nat
  body : ProxyBody
deriving DecidableEq

/-- Shallow embedding of the `POST` handler of the frontend analyze proxy
(src/unnamed/part_001): a throw while parsing the request body or fetching is
caught and answered with 500 and error 'Analysis failed'; a non-ok backend
response is answered with the backend's status and an error message carrying
the backend status and response text ('no body' when the text is empty); an
ok response's JSON body is forwarded with status 200 (a JSON parse throw again
falls to the catch-all). -/
def analyzePOST (reqJson : Option String) (outcome : FetchOutcome) :
    ProxyResponse :=
  match reqJson with
  | none => ⟨500, ProxyBody.jsonError "Analysis failed"⟩
  | some _ =>
    match outcome with
    | FetchOutcome.threw => ⟨500, ProxyBody.jsonError "Analysis failed"⟩
    | FetchOutcome.resolved r =>
      if respOk r then
        match r.json with
        | none => ⟨500, ProxyBody.jsonError "Analysis failed"⟩
        | some d => ⟨200, ProxyBody.jsonData d⟩
      else
        ⟨r.status, ProxyBody.jsonError
          ("Backend error " ++ toString r.status ++ ": "
            ++ (if r.text = "" then "no body" else r.text))⟩

/-! ## Capture page two-step validation
(embedded from src/frontend/app/capture/page.tsx) -/

/-- The `ValidationStep` union type of the capture page
(src/frontend/app/capture/page.tsx, line 6). -/
inductive ValidationStep
| initial
| confirmation
| complete
deriving DecidableEq

/-- The stored first capture: base64 video and audio data
(src/frontend/app/capture/page.tsx, line 21). -/
structure Capture where
  video : String
  audio : String
deriving DecidableEq

/-- The body of the POST to `/api/analyze` issued by `analyzeMedia`
(src/frontend/app/capture/page.tsx, lines 104-120), restricted to the fields
the claim is about. -/
structure AnalyzeRequest where
  video_b64 : String
  audio_b64 : String
  first_capture : Option Capture
  validation_step : String
deriving DecidableEq

/-- The capture page component state driving the two-step flow
(src/frontend/app/capture/page.tsx, lines 9-21). -/
structure CaptureState where
  isRecording : Bool
  validationStep : ValidationStep
  firstCaptureData : Option Capture
deriving DecidableEq

/-- Shallow embedding of `analyzeMedia`
(src/frontend/app/capture/page.tsx, lines 82-179).  The base64 conversion is
kept abstract — the blob stands for its base64 string, and the audio reuses
the video data (line 88).  While `validationStep` is 'initial' the capture is
stored as `firstCaptureData`, the step becomes 'confirmation' and the function
returns without any network request (lines 91-100); otherwise the POST to
`/api/analyze` is issued with `first_capture` set to the stored first capture
and `validation_step` 'confirmation' (lines 104-120), and on a successful
response the step becomes 'complete' (line 162) while an error response or a
throw leaves it unchanged (lines 124-129, 172-175). -/
def analyzeMedia (s : CaptureState) (blob : String) (respOkFlag : Bool) :
    CaptureState × Option AnalyzeRequest :=
  if s.validationStep = ValidationStep.initial then
    ({ s with
        firstCaptureData := some ⟨blob, blob⟩,
        validationStep := ValidationStep.confirmation }, none)
  else
    ({ s with
        validationStep :=
          if respOkFlag then ValidationStep.complete else s.validationStep },
      some ⟨blob, blob, s.firstCaptureData, "confirmation"⟩)

/-- User-interface events of the capture page: starting a capture (the start
button is rendered only while not recording and is disabled once validation is
complete, src/frontend/app/capture/page.tsx lines 274-283), stopping it (the
recorder's onstop handler then runs `analyzeMedia` on the recorded blob, lines
49-52, 70-80), and the reset button (rendered only in steps 'confirmation' and
'complete', lines 227-235, handler lines 181-188). -/
inductive CaptureEvent
| startCapture
| stopCapture (blob : String) (respOkFlag : Bool)
| reset
deriving DecidableEq

/-- One step of the capture page: the new state, and the issued request (if
any) paired with the state at which `analyzeMedia` ran. -/
def captureStep (s : CaptureState) :
    CaptureEvent → CaptureState × Option (CaptureState × AnalyzeRequest)
  | CaptureEvent.startCapture =>
    if s.isRecording = false ∧ s.validationStep ≠ ValidationStep.complete then
      ({ s with isRecording := true }, none)
    else (s, none)
  | CaptureEvent.stopCapture blob respOkFlag =>
    if s.isRecording then
      ((analyzeMedia { s with isRecording := false } blob respOkFlag).1,
        (analyzeMedia { s with isRecording := false } blob respOkFlag).2.map
          (fun req => ({ s with isRecording := false }, req)))
    else (s, none)
  | CaptureEvent.reset =>
    if s.validationStep = ValidationStep.confirmation ∨
        s.validationStep = ValidationStep.complete then
      ({ s with
          validationStep := ValidationStep.initial,
          firstCaptureData := none }, none)
    else (s, none)

/-- The initial component state (src/frontend/app/capture/page.tsx,
lines 9-21). -/
def initialCaptureState : CaptureState := ⟨false, ValidationStep.initial, none⟩

/-- Run the capture page over a sequence of events, collecting every issued
request together with the state at which `analyzeMedia` ran. -/
def runCapture : CaptureState → List CaptureEvent →
    CaptureState × List (CaptureState × AnalyzeRequest)
  | s, [] => (s, [])
  | s, e :: evs =>
    ((runCapture (captureStep s e).1 evs).1,
      (captureStep s e).2.toList ++ (runCapture (captureStep s e).1 evs).2)

/-- Invariant of the capture page: while recording, validation is not yet
complete (a new capture cannot be started once it is), and in step
'confirmation' a first capture is stored. -/
def CaptureInv (s : CaptureState) : Prop :=
  (s.isRecording = true → s.validationStep ≠ ValidationStep.complete) ∧
  (s.validationStep = ValidationStep.confirmation →
    s.firstCaptureData.isSome = true)

/-- Concrete example document from the claim: document A with text "alpha". -/
def docA : RetrievalDocument := ⟨1, [], ["alpha"], []⟩

/-- Concrete example document from the claim: document B with text "beta". -/
def docB : RetrievalDocument := ⟨2, [], ["beta"], []⟩

/-! ## Helper lemmas -/

theorem insertionSort_head_min {α : Type} (r : α → α → Prop) [DecidableRel r]
    [IsTotal α r] [IsTrans α r] [IsRefl α r] {l : List α} {b : α} {rest : List α}
    (h : List.insertionSort r l = b :: rest) : b ∈ l ∧ ∀ x ∈ l, r b x := by
  have hp := List.perm_insertionSort r l
  rw [h] at hp
  refine ⟨hp.subset (List.mem_cons_self b rest), ?_⟩
  intro x hx
  have hx' : x ∈ b :: rest := hp.symm.subset hx
  rcases List.mem_cons.mp hx' with h1 | h2
  · simpa [h1] using refl_of r b
  · have hs := List.sorted_insertionSort r l
    rw [h] at hs
    exact List.rel_of_sorted_cons hs x h2

theorem candLe_iff (a b : ℚ × CacheEntry) :
    candLe a b ↔ a.1 < b.1 ∨ (a.1 = b.1 ∧ (b.2.hitCount < a.2.hitCount ∨
      (a.2.hitCount = b.2.hitCount ∧ b.2.createdAt ≤ a.2.createdAt))) := by
  simp [candLe, candKey, Prod.Lex.le_iff, OrderDual.toDual_le_toDual,
    OrderDual.toDual_lt_toDual, OrderDual.toDual_inj]

theorem lookup_hits_misses (dist : List ℚ → List ℚ → ℚ) (c : SemanticCache)
    (qe : List ℚ) (qt : String) (now : Nat) :
    ((SemanticCache.lookup dist c qe qt now).2.hits
        = c.hits + (if (SemanticCache.lookup dist c qe qt now).1.hit then 1 else 0)) ∧
    ((SemanticCache.lookup dist c qe qt now).2.misses
        = c.misses + (if (SemanticCache.lookup dist c qe qt now).1.hit then 0 else 1)) := by
  cases hbc : bestCandidate dist c.entries qe now with
  | none => simp [SemanticCache.lookup, hbc]
  | some best =>
    by_cases hthr : best.1 < c.threshold <;>
      simp [SemanticCache.lookup, hbc, hthr]

theorem length_filter_hit (l : List LookupResult) :
    (l.filter (fun r => r.hit)).length + (l.filter (fun r => !r.hit)).length
      = l.length := by
  induction l with
  | nil => simp
  | cons r rs ih =>
    cases hr : r.hit <;> simp [List.filter_cons, hr] <;> omega

theorem runLookups_counters (dist : List ℚ → List ℚ → ℚ) (qs : List CacheQuery) :
    ∀ c : SemanticCache,
      (runLookups dist c qs).2.hits
          = c.hits + ((runLookups dist c qs).1.filter (fun r => r.hit)).length ∧
      (runLookups dist c qs).2.misses
          = c.misses + ((runLookups dist c qs).1.filter (fun r => !r.hit)).length ∧
      (runLookups dist c qs).1.length = qs.length := by
  induction qs with
  | nil =>
    intro c
    simp [runLookups]
  | cons q qs ih =>
    intro c
    have hl := lookup_hits_misses dist c q.embedding q.text q.time
    obtain ⟨ih1, ih2, ih3⟩ :=
      ih (SemanticCache.lookup dist c q.embedding q.text q.time).2
    simp only [runLookups]
    refine ⟨?_, ?_, ?_⟩
    · cases hr : (SemanticCache.lookup dist c q.embedding q.text q.time).1.hit <;>
        · rw [hl.1] at ih1
          simp [List.filter_cons, hr, ih1]
          try omega
    · cases hr : (SemanticCache.lookup dist c q.embedding q.text q.time).1.hit <;>
        · rw [hl.2] at ih2
          simp [List.filter_cons, hr, ih2]
          try omega
    · simpa using ih3

theorem search_map_fst (alpha : ℚ) (sim : List ℚ → List ℚ → ℚ)
    (idx : RetrievalIndex) (qe : List ℚ) (qts : List String) (topK : Nat) :
    (idx.search alpha sim qe qts topK).map Prod.fst
      = (List.insertionSort (rankLe alpha sim qe qts) idx.docs).take topK := by
  have hcomp : (Prod.fst ∘ fun d : RetrievalDocument =>
      (d, hybridScore alpha sim qe qts d)) = id := rfl
  simp [RetrievalIndex.search, List.map_map, hcomp]

theorem searchExample_eq :
    RetrievalIndex.search 0 (fun _ _ => 0) ⟨0, [docA, docB]⟩ [] ["alpha"] 2
      = [(docA, 1), (docB, 0)] := by
  have hne : ("alpha" : String) ≠ "beta" := by decide
  have hA : hybridScore 0 (fun _ _ => 0) [] ["alpha"] docA = 1 := by
    norm_num [hybridScore, lexicalScore, docA]
  have hB : hybridScore 0 (fun _ _ => 0) [] ["alpha"] docB = 0 := by
    norm_num [hybridScore, lexicalScore, docB, hne]
  have hAB : rankLe 0 (fun _ _ => 0) [] ["alpha"] docA docB := by
    simp [rankLe, docKey, Prod.Lex.le_iff, OrderDual.toDual_lt_toDual]
    left
    norm_num [hybridScore, lexicalScore, docA, docB, hne]
  simp [RetrievalIndex.search, List.insertionSort, List.orderedInsert, hAB, hA, hB]

theorem rankLe_iff (alpha : ℚ) (sim : List ℚ → List ℚ → ℚ) (qe : List ℚ)
    (qts : List String) (a b : RetrievalDocument) :
    rankLe alpha sim qe qts a b ↔
      hybridScore alpha sim qe qts b < hybridScore alpha sim qe qts a ∨
        (hybridScore alpha sim qe qts a = hybridScore alpha sim qe qts b ∧
          a.id ≤ b.id) := by
  simp [rankLe, docKey, Prod.Lex.le_iff, OrderDual.toDual_le_toDual,
    OrderDual.toDual_lt_toDual, OrderDual.toDual_inj]

/-! ## Claim theorems: Semantic Cache -/

/-- C1: every `lookup(queryEmbedding, queryText)` result is computed by scoring
every live (non-expired) entry by its distance to the query embedding and
returning the entry with the smallest distance when that distance is below the
configured threshold, ties broken by highest `hitCount` then most recent
`createdAt`; and whenever no live entry has distance below the threshold, the
result has `hit = false`. -/
theorem C1_cache_lookup (dist : List ℚ → List ℚ → ℚ) (c : SemanticCache)
    (qe : List ℚ) (qt : String) (now : Nat) :
    ((SemanticCache.lookup dist c qe qt now).1.hit = true →
      ∃ e, e ∈ c.entries.filter (fun x => x.live now) ∧
        (SemanticCache.lookup dist c qe qt now).1.response = some e.responsePayload ∧
        (SemanticCache.lookup dist c qe qt now).1.distance
          = some (dist qe e.queryEmbedding) ∧
        dist qe e.queryEmbedding < c.threshold ∧
        ∀ e' ∈ c.entries.filter (fun x => x.live now),
          dist qe e.queryEmbedding < dist qe e'.queryEmbedding ∨
            (dist qe e.queryEmbedding = dist qe e'.queryEmbedding ∧
              (e'.hitCount < e.hitCount ∨
                (e.hitCount = e'.hitCount ∧ e'.createdAt ≤ e.createdAt)))) ∧
    ((∀ e ∈ c.entries.filter (fun x => x.live now),
        c.threshold ≤ dist qe e.queryEmbedding) →
      (SemanticCache.lookup dist c qe qt now).1.hit = false) := by
  cases hs : List.insertionSort candLe
      ((c.entries.filter (fun e => e.live now)).map
        (fun e => (dist qe e.queryEmbedding, e))) with
  | nil =>
    have hbc : bestCandidate dist c.entries qe now = none := by
      unfold bestCandidate
      rw [hs]
      rfl
    constructor
    · intro hhit
      have hmiss : (SemanticCache.lookup dist c qe qt now).1.hit = false := by
        simp [SemanticCache.lookup, hbc]
      rw [hmiss] at hhit
      exact absurd hhit (by simp)
    · intro _
      simp [SemanticCache.lookup, hbc]
  | cons best rest =>
    have hbc : bestCandidate dist c.entries qe now = some best := by
      unfold bestCandidate
      rw [hs]
      rfl
    obtain ⟨hmem, hmin⟩ := insertionSort_head_min candLe hs
    obtain ⟨e, he_live, he_eq⟩ := List.mem_map.mp hmem
    by_cases hthr : best.1 < c.threshold
    · constructor
      · intro _
        refine ⟨best.2, ?_, ?_, ?_, ?_, ?_⟩
        · rw [← he_eq]
          exact he_live
        · simp [SemanticCache.lookup, hbc, hthr]
        · have hb1 : best.1 = dist qe best.2.queryEmbedding := by
            rw [← he_eq]
          simp [SemanticCache.lookup, hbc, hthr, ← hb1]
        · have hb1 : best.1 = dist qe best.2.queryEmbedding := by
            rw [← he_eq]
          rw [← hb1]
          exact hthr
        · intro e' he'
          have hc' := hmin (dist qe e'.queryEmbedding, e')
            (List.mem_map.mpr ⟨e', he', rfl⟩)
          have hi := (candLe_iff _ _).mp hc'
          rw [← he_eq] at hi ⊢
          simpa using hi
      · intro hall
        exfalso
        have hge : c.threshold ≤ best.1 := by
          rw [← he_eq]
          exact hall e he_live
        exact absurd hthr (not_lt.mpr hge)
    · constructor
      · intro hhit
        have hmiss : (SemanticCache.lookup dist c qe qt now).1.hit = false := by
          simp [SemanticCache.lookup, hbc, hthr]
        rw [hmiss] at hhit
        exact absurd hhit (by simp)
      · intro _
        simp [SemanticCache.lookup, hbc, hthr]

/-- Witness for C1: a concrete cache whose only live entry is at distance 0 with
threshold 0, so no live entry is strictly below the threshold and the lookup
misses. -/
theorem C1_cache_lookup_witness :
    (SemanticCache.lookup (fun _ _ => 0)
      ⟨[⟨[1], "q", "resp", 0, 10, 0⟩], 0, 0, 0⟩ [1] "q" 5).1.hit = false :=
  (C1_cache_lookup (fun _ _ => 0)
      ⟨[⟨[1], "q", "resp", 0, 10, 0⟩], 0, 0, 0⟩ [1] "q" 5).2
    (by
      intro e he
      simp at he
      simp [he])

/-- C8: after a sequence of `N` lookups of which `H` are hits, starting from a
reset cache (zero counters), `stats()`'s `hitRate` equals exactly `H / N`. -/
theorem C8_hit_rate (dist : List ℚ → List ℚ → ℚ) (entries : List CacheEntry)
    (thr : ℚ) (qs : List CacheQuery) :
    (runLookups dist ⟨entries, thr, 0, 0⟩ qs).2.hitRate
      = (((runLookups dist ⟨entries, thr, 0, 0⟩ qs).1.filter
            (fun r => r.hit)).length : ℚ) / (qs.length : ℚ) := by
  obtain ⟨h1, h2, h3⟩ := runLookups_counters dist qs ⟨entries, thr, 0, 0⟩
  have hHM : ((runLookups dist ⟨entries, thr, 0, 0⟩ qs).1.filter
        (fun r => r.hit)).length
      + ((runLookups dist ⟨entries, thr, 0, 0⟩ qs).1.filter
          (fun r => !r.hit)).length = qs.length := by
    rw [length_filter_hit]
    exact h3
  have hn : (qs.length : ℚ)
      = (((runLookups dist ⟨entries, thr, 0, 0⟩ qs).1.filter
            (fun r => r.hit)).length : ℚ)
        + (((runLookups dist ⟨entries, thr, 0, 0⟩ qs).1.filter
            (fun r => !r.hit)).length : ℚ) := by
    exact_mod_cast hHM.symm
  unfold SemanticCache.hitRate
  rw [h1, h2, hn]
  norm_num

/-! ## Claim theorems: Retrieval Index -/

/-- C6: indexing a document whose embedding dimension differs from the index's
configured embedding dimension fails with a `DimensionMismatch` error and the
index's document set after the call is identical to the set before the call. -/
theorem C6_dimension_mismatch (idx : RetrievalIndex) (d : RetrievalDocument)
    (h : d.embedding.length ≠ idx.dim) :
    RetrievalIndex.indexDoc idx d = (idx, some IndexError.dimensionMismatch) := by
  simp [RetrievalIndex.indexDoc, h]

/-- Witness for C6: a 2-dimensional embedding rejected by a 3-dimensional index. -/
theorem C6_dimension_mismatch_witness :
    RetrievalIndex.indexDoc ⟨3, []⟩ ⟨1, [1, 2], [], []⟩
      = (⟨3, []⟩, some IndexError.dimensionMismatch) :=
  C6_dimension_mismatch ⟨3, []⟩ ⟨1, [1, 2], [], []⟩ (by decide)

/-- C3: every returned document's score equals
`alpha * cosineSimilarity(queryEmbedding, doc.embedding)
  + (1 - alpha) * lexicalScore(queryText, doc.chunkText)` (the similarity
function abstract, `alpha` defaulting to 0.7), the lexical score is normalized
to the interval from 0 to 1, and the result is the top `topK` documents in
descending score order with ties broken by ascending id; in particular a
lexical-only query for "alpha" against documents A ("alpha") and B ("beta")
ranks A above B. -/
theorem C3_search (alpha : ℚ) (sim : List ℚ → List ℚ → ℚ) (idx : RetrievalIndex)
    (qe : List ℚ) (qts : List String) (topK : Nat) :
    (∀ p ∈ idx.search alpha sim qe qts topK,
        p.2 = alpha * sim qe p.1.embedding
          + (1 - alpha) * lexicalScore qts p.1.chunkTerms) ∧
    (∀ ts : List String, 0 ≤ lexicalScore qts ts ∧ lexicalScore qts ts ≤ 1) ∧
    List.Pairwise (fun p q : RetrievalDocument × ℚ =>
        q.2 < p.2 ∨ (p.2 = q.2 ∧ p.1.id ≤ q.1.id))
      (idx.search alpha sim qe qts topK) ∧
    (∀ p ∈ idx.search alpha sim qe qts topK, ∀ d' ∈ idx.docs,
        d' ∉ (idx.search alpha sim qe qts topK).map Prod.fst →
        hybridScore alpha sim qe qts d' < hybridScore alpha sim qe qts p.1 ∨
          (hybridScore alpha sim qe qts p.1 = hybridScore alpha sim qe qts d' ∧
            p.1.id ≤ d'.id)) ∧
    RetrievalIndex.search 0 (fun _ _ => 0) ⟨0, [docA, docB]⟩ [] ["alpha"] 2
      = [(docA, 1), (docB, 0)] := by
  refine ⟨?_, ?_, ?_, ?_, ?_⟩
  · intro p hp
    obtain ⟨d, _, rfl⟩ := List.mem_map.mp hp
    rfl
  · intro ts
    unfold lexicalScore
    by_cases hq : qts = []
    · simp [hq]
    · rw [if_neg hq]
      have hlen : 0 < (qts.length : ℚ) := by
        have hp : 0 < qts.length := List.length_pos.mpr hq
        exact_mod_cast hp
      constructor
      · exact div_nonneg (Nat.cast_nonneg _) (Nat.cast_nonneg _)
      · rw [div_le_one hlen]
        exact_mod_cast List.length_filter_le _ _
  · have hs := List.sorted_insertionSort (rankLe alpha sim qe qts) idx.docs
    have htake : List.Pairwise (rankLe alpha sim qe qts)
        ((List.insertionSort (rankLe alpha sim qe qts) idx.docs).take topK) :=
      List.Pairwise.sublist (List.take_sublist topK _) hs
    unfold RetrievalIndex.search
    rw [List.pairwise_map]
    exact htake.imp (fun h => (rankLe_iff _ _ _ _ _ _).mp h)
  · intro p hp d' hd' hnot
    obtain ⟨dp, hdp_take, rfl⟩ := List.mem_map.mp hp
    have hd'sort : d' ∈ List.insertionSort (rankLe alpha sim qe qts) idx.docs :=
      (List.mem_insertionSort _).mpr hd'
    have hnt : d' ∉ (List.insertionSort (rankLe alpha sim qe qts) idx.docs).take topK := by
      rw [search_map_fst] at hnot
      exact hnot
    have hd'drop : d' ∈ (List.insertionSort (rankLe alpha sim qe qts) idx.docs).drop topK := by
      have hin : d' ∈ (List.insertionSort (rankLe alpha sim qe qts) idx.docs).take topK
          ++ (List.insertionSort (rankLe alpha sim qe qts) idx.docs).drop topK := by
        rw [List.take_append_drop]
        exact hd'sort
      rcases List.mem_append.mp hin with h | h
      · exact absurd h hnt
      · exact h
    have hsorted := List.sorted_insertionSort (rankLe alpha sim qe qts) idx.docs
    have hpw : ∀ a ∈ (List.insertionSort (rankLe alpha sim qe qts) idx.docs).take topK,
        ∀ b ∈ (List.insertionSort (rankLe alpha sim qe qts) idx.docs).drop topK,
        rankLe alpha sim qe qts a b := by
      have hsp : List.Pairwise (rankLe alpha sim qe qts)
          ((List.insertionSort (rankLe alpha sim qe qts) idx.docs).take topK
            ++ (List.insertionSort (rankLe alpha sim qe qts) idx.docs).drop topK) := by
        rw [List.take_append_drop]
        exact hsorted
      exact (List.pairwise_append.mp hsp).2.2
    exact (rankLe_iff _ _ _ _ _ _).mp (hpw dp hdp_take d' hd'drop)
  · exact searchExample_eq

/-- Witness for C3: the score formula instantiated at the top-ranked result of
the concrete example index. -/
theorem C3_search_witness :
    ((docA, (1 : ℚ)) : RetrievalDocument × ℚ).2
      = 0 * ((fun _ _ => 0) : List ℚ → List ℚ → ℚ) []
            ((docA, (1 : ℚ)) : RetrievalDocument × ℚ).1.embedding
        + (1 - 0) * lexicalScore ["alpha"]
            ((docA, (1 : ℚ)) : RetrievalDocument × ℚ).1.chunkTerms :=
  (C3_search 0 (fun _ _ => 0) ⟨0, [docA, docB]⟩ [] ["alpha"] 2).1
    (docA, (1 : ℚ)) (by rw [searchExample_eq]; simp)

/-! ## Claim theorems: Model Router and Pipeline Coordinator -/

theorem select_mem {models : List ModelDescriptor} {st : RouterState} {now : Nat}
    {intent : String} {requiredTier : String → Nat} {b : BudgetState}
    {d : RoutingDecision}
    (hsel : select models st now intent requiredTier b = some d) :
    ∀ x ∈ d.chosenModel :: d.fallbackChain,
      x ∈ selectCandidates models st now intent := by
  unfold select at hsel
  by_cases hb : budgetLow b
  · rw [if_pos hb] at hsel
    cases hs : List.insertionSort tierLe (selectCandidates models st now intent) with
    | nil =>
      rw [hs] at hsel
      exact absurd hsel (by simp)
    | cons chosen rest =>
      rw [hs] at hsel
      simp only [Option.some.injEq] at hsel
      intro x hx
      rw [← hsel] at hx
      have hx' : x ∈ List.insertionSort tierLe (selectCandidates models st now intent) := by
        rw [hs]
        exact hx
      exact (List.mem_insertionSort tierLe).mp hx'
  · rw [if_neg hb] at hsel
    cases hs : List.insertionSort tierLe
        ((selectCandidates models st now intent).filter
          (fun x => decide (requiredTier intent ≤ x.tier)))
      ++ List.insertionSort tierLe
        ((selectCandidates models st now intent).filter
          (fun x => decide (x.tier < requiredTier intent))) with
    | nil =>
      rw [hs] at hsel
      exact absurd hsel (by simp)
    | cons chosen rest =>
      rw [hs] at hsel
      simp only [Option.some.injEq] at hsel
      intro x hx
      rw [← hsel] at hx
      have hx' : x ∈ chosen :: rest := hx
      rw [← hs] at hx'
      rcases List.mem_append.mp hx' with h | h
      · exact List.mem_of_mem_filter ((List.mem_insertionSort tierLe).mp h)
      · exact List.mem_of_mem_filter ((List.mem_insertionSort tierLe).mp h)

/-- C4: after three consecutive provider failures for model `m`, `m`'s circuit
opens at the third failure time, and every `select` before the cooldown (30s)
elapses returns a decision that names `m` neither as `chosenModel` nor in the
`fallbackChain`. -/
theorem C4_circuit_breaker (st : RouterState) (m : String) (t1 t2 t3 now : Nat)
    (models : List ModelDescriptor) (intent : String)
    (requiredTier : String → Nat) (b : BudgetState) (d : RoutingDecision)
    (hnow : now < t3 + cooldownMs)
    (hsel : select models
        (recordFailure (recordFailure (recordFailure st m t1) m t2) m t3)
        now intent requiredTier b = some d) :
    d.chosenModel.name ≠ m ∧ ∀ f ∈ d.fallbackChain, f.name ≠ m := by
  have hopened :
      ((recordFailure (recordFailure (recordFailure st m t1) m t2) m t3).health m).openedAt
        = some t3 := by
    simp [recordFailure, failureThreshold]
  have hopen : circuitOpen
      (recordFailure (recordFailure (recordFailure st m t1) m t2) m t3) m now = true := by
    simp only [circuitOpen, hopened]
    simpa using hnow
  have hmem := select_mem hsel
  have hname : ∀ x ∈ d.chosenModel :: d.fallbackChain, x.name ≠ m := by
    intro x hx hxm
    have hx' := hmem x hx
    have hpred := List.of_mem_filter hx'
    rw [hxm] at hpred
    rw [hopen] at hpred
    simp at hpred
  exact ⟨hname d.chosenModel (List.mem_cons_self _ _),
    fun f hf => hname f (List.mem_cons_of_mem _ hf)⟩

/-- Witness for C4: a concrete router state in which "gpt" has failed three
times at time 0; at time 1 a select over a healthy capable "claude" never
proposes "gpt". -/
theorem C4_circuit_breaker_witness :
    ((1 : Nat) < 0 + cooldownMs) ∧
    ((⟨"claude", 2, 0, 0, ["reasoning"], 1000⟩ : ModelDescriptor).name ≠ "gpt" ∧
      ∀ f ∈ ([] : List ModelDescriptor), f.name ≠ "gpt") := by
  refine ⟨by norm_num [cooldownMs], ?_⟩
  refine C4_circuit_breaker ⟨fun _ => ⟨0, none⟩⟩ "gpt" 0 0 0 1
    [⟨"claude", 2, 0, 0, ["reasoning"], 1000⟩] "reasoning" (fun _ => 0) ⟨1, 1⟩
    ⟨⟨"claude", 2, 0, 0, ["reasoning"], 1000⟩, [], RoutingReason.classifiedTier⟩
    (by norm_num [cooldownMs]) ?_
  have hb : budgetLow ⟨1, 1⟩ = false := by
    norm_num [budgetLow]
  have hco : circuitOpen ⟨fun _ => ⟨0, none⟩⟩ "claude" 1 = false := by
    simp [circuitOpen]
  simp [select, hb, selectCandidates, recordFailure, circuitOpen, List.insertionSort,
    List.orderedInsert, failureThreshold, cooldownMs]

/-- C5: whenever the remaining budget is below 10% of the period budget, any
decision returned by `select` carries reason budget-downgrade and chooses a
lowest-cost (lowest-tier) capable healthy model, regardless of the tier the
intent would otherwise require. -/
theorem C5_budget_downgrade (models : List ModelDescriptor) (st : RouterState)
    (now : Nat) (intent : String) (requiredTier : String → Nat)
    (b : BudgetState) (d : RoutingDecision)
    (hb : b.remaining * 10 < b.periodBudget)
    (hsel : select models st now intent requiredTier b = some d) :
    d.reason = RoutingReason.budgetDowngrade ∧
    ∀ c ∈ models,
      (!circuitOpen st c.name now && c.capabilities.contains intent) = true →
      d.chosenModel.tier ≤ c.tier := by
  have hlow : budgetLow b = true := by
    simp [budgetLow, hb]
  unfold select at hsel
  rw [if_pos hlow] at hsel
  cases hs : List.insertionSort tierLe (selectCandidates models st now intent) with
  | nil =>
    rw [hs] at hsel
    exact absurd hsel (by simp)
  | cons chosen rest =>
    rw [hs] at hsel
    simp only [Option.some.injEq] at hsel
    obtain ⟨_, hmin⟩ := insertionSort_head_min tierLe hs
    constructor
    · rw [← hsel]
    · intro c hc hcpred
      have hcand : c ∈ selectCandidates models st now intent :=
        List.mem_filter.mpr ⟨hc, hcpred⟩
      have := hmin c hcand
      rw [← hsel]
      exact this

/-- Witness for C5: a 95%-consumed budget forces reason budget-downgrade for a
concrete one-model router. -/
theorem C5_budget_downgrade_witness :
    ((⟨⟨"a", 1, 0, 0, ["fast-qa"], 100⟩, [], RoutingReason.budgetDowngrade⟩ :
        RoutingDecision).reason = RoutingReason.budgetDowngrade) :=
  (C5_budget_downgrade [⟨"a", 1, 0, 0, ["fast-qa"], 100⟩] ⟨fun _ => ⟨0, none⟩⟩ 0
    "fast-qa" (fun _ => 5) ⟨1, 20⟩
    ⟨⟨"a", 1, 0, 0, ["fast-qa"], 100⟩, [], RoutingReason.budgetDowngrade⟩
    (by norm_num)
    (by
      have hlow : budgetLow ⟨1, 20⟩ = true := by
        norm_num [budgetLow]
      simp [select, hlow, selectCandidates, circuitOpen, List.insertionSort,
        List.orderedInsert])).1

theorem invokeChain_error_iff (attempt : ModelDescriptor → Except String String)
    (l : List ModelDescriptor) (e : TerminalError) :
    invokeChain attempt l = Except.error e ↔
      (e = TerminalError.allProvidersExhausted ∧
        ∀ m ∈ l, ∃ msg, attempt m = Except.error msg) := by
  induction l with
  | nil => simp [invokeChain, eq_comm]
  | cons mdl rest ih =>
    cases ha : attempt mdl with
    | ok r => simp [invokeChain, ha]
    | error msg =>
      simp only [invokeChain, ha]
      rw [ih]
      constructor
      · rintro ⟨he, hall⟩
        refine ⟨he, ?_⟩
        intro m hm
        rcases List.mem_cons.mp hm with h1 | h2
        · exact ⟨msg, by rw [h1]; exact ha⟩
        · exact hall m h2
      · rintro ⟨he, hall⟩
        exact ⟨he, fun m hm => hall m (List.mem_cons_of_mem _ hm)⟩

theorem invokeChain_ok_of_mem (attempt : ModelDescriptor → Except String String)
    (l : List ModelDescriptor) (m : ModelDescriptor) (r : String)
    (hm : m ∈ l) (hr : attempt m = Except.ok r) :
    exceptOk (invokeChain attempt l) = true := by
  induction l with
  | nil => simp at hm
  | cons mdl rest ih =>
    rcases List.mem_cons.mp hm with h1 | h2
    · subst h1
      simp [invokeChain, hr, exceptOk]
    · cases ha : attempt mdl with
      | ok r' => simp [invokeChain, ha, exceptOk]
      | error msg =>
        simp only [invokeChain, ha]
        exact ih h2

/-- C7: when every model in the decision's `chosenModel` and `fallbackChain`
fails, `invoke` fails with `AllProvidersExhausted` — and the Coordinator, on a
non-hit cache result, returns exactly that error; conversely the Coordinator
only ever fails with `AllProvidersExhausted` (and then every model of the
chosen chain failed) or with upstream cancellation; and when the cache and the
index both fail, the request degrades to the cache-miss / empty-context path
and still completes whenever any model in the chain succeeds. -/
theorem C7_terminal_failures (cancelled : Bool)
    (cacheRes : Except String (Option String))
    (retrievalRes : Except String (List RetrievalDocument))
    (d : RoutingDecision)
    (attempt : List RetrievalDocument → ModelDescriptor → Except String String) :
    (∀ att : ModelDescriptor → Except String String,
      (∀ m ∈ d.chosenModel :: d.fallbackChain, ∃ msg, att m = Except.error msg) →
      invoke d att = Except.error TerminalError.allProvidersExhausted) ∧
    (cancelled = false →
      (∀ resp, cacheRes ≠ Except.ok (some resp)) →
      (∀ m ∈ d.chosenModel :: d.fallbackChain, ∃ msg,
        attempt (degradedContext retrievalRes) m = Except.error msg) →
      handleRequest cancelled cacheRes retrievalRes d attempt
        = Except.error TerminalError.allProvidersExhausted) ∧
    (∀ e, handleRequest cancelled cacheRes retrievalRes d attempt = Except.error e →
      (e = TerminalError.cancelled ∧ cancelled = true) ∨
        (e = TerminalError.allProvidersExhausted ∧
          ∀ m ∈ d.chosenModel :: d.fallbackChain, ∃ msg,
            attempt (degradedContext retrievalRes) m = Except.error msg)) ∧
    (cancelled = false →
      (∃ ce, cacheRes = Except.error ce) →
      (∃ re, retrievalRes = Except.error re) →
      (∃ r m, m ∈ d.chosenModel :: d.fallbackChain ∧ attempt [] m = Except.ok r) →
      exceptOk (handleRequest cancelled cacheRes retrievalRes d attempt) = true) := by
  refine ⟨?_, ?_, ?_, ?_⟩
  · intro att hall
    exact (invokeChain_error_iff att _ _).mpr ⟨rfl, hall⟩
  · intro hcan hnohit hall
    subst hcan
    cases cacheRes with
    | error ce =>
      show invoke d (attempt (degradedContext retrievalRes))
        = Except.error TerminalError.allProvidersExhausted
      exact (invokeChain_error_iff _ _ _).mpr ⟨rfl, hall⟩
    | ok co =>
      cases co with
      | none =>
        show invoke d (attempt (degradedContext retrievalRes))
          = Except.error TerminalError.allProvidersExhausted
        exact (invokeChain_error_iff _ _ _).mpr ⟨rfl, hall⟩
      | some resp => exact absurd rfl (hnohit resp)
  · intro e he
    cases cancelled with
    | true =>
      left
      simp [handleRequest] at he
      exact ⟨he.symm, rfl⟩
    | false =>
      right
      cases cacheRes with
      | error ce =>
        simp only [handleRequest, Bool.false_eq_true, if_false] at he
        exact (invokeChain_error_iff _ _ _).mp he
      | ok co =>
        cases co with
        | none =>
          simp only [handleRequest, Bool.false_eq_true, if_false] at he
          exact (invokeChain_error_iff _ _ _).mp he
        | some resp =>
          simp [handleRequest] at he
  · intro hcan hce hre hok
    obtain ⟨ce, rfl⟩ := hce
    obtain ⟨re, rfl⟩ := hre
    obtain ⟨r, m, hm, hr⟩ := hok
    subst hcan
    show exceptOk (invoke d (attempt [])) = true
    exact invokeChain_ok_of_mem (attempt []) _ m r hm hr

/-- Witness for C7: with every provider failing the coordinator returns
exactly `AllProvidersExhausted`, and with the cache and the index both failing
but a provider that succeeds, the request still completes. -/
theorem C7_terminal_failures_witness :
    handleRequest false (Except.error "cache down") (Except.error "index down")
        ⟨⟨"a", 1, 0, 0, ["fast-qa"], 100⟩, [], RoutingReason.classifiedTier⟩
        (fun _ _ => Except.error "boom")
      = Except.error TerminalError.allProvidersExhausted ∧
    exceptOk (handleRequest false (Except.error "cache down")
      (Except.error "index down")
      ⟨⟨"a", 1, 0, 0, ["fast-qa"], 100⟩, [], RoutingReason.classifiedTier⟩
      (fun _ _ => Except.ok "resp")) = true :=
  ⟨(C7_terminal_failures false (Except.error "cache down") (Except.error "index down")
      ⟨⟨"a", 1, 0, 0, ["fast-qa"], 100⟩, [], RoutingReason.classifiedTier⟩
      (fun _ _ => Except.error "boom")).2.1
    rfl (fun resp h => Except.noConfusion h) (fun m _ => ⟨"boom", rfl⟩),
   (C7_terminal_failures false (Except.error "cache down") (Except.error "index down")
      ⟨⟨"a", 1, 0, 0, ["fast-qa"], 100⟩, [], RoutingReason.classifiedTier⟩
      (fun _ _ => Except.ok "resp")).2.2.2
    rfl ⟨"cache down", rfl⟩ ⟨"index down", rfl⟩
    ⟨"resp", ⟨"a", 1, 0, 0, ["fast-qa"], 100⟩, List.mem_cons_self _ _, rfl⟩⟩

/-! ## Claim theorems: single-flight -/

theorem find_isSome_map_fst (l : List (FlightKey × List CallerId))
    (k kq : FlightKey) (c : CallerId) :
    ((l.map (fun p => if p.1 = kq then (p.1, c :: p.2) else p)).find?
        (fun p => decide (p.1 = k))).isSome
      = (l.find? (fun p => decide (p.1 = k))).isSome := by
  induction l with
  | nil => rfl
  | cons q rest ih =>
    have hql : (if q.1 = kq then (q.1, c :: q.2) else q).1 = q.1 := by
      by_cases hq : q.1 = kq <;> simp [hq]
    simp only [List.map_cons]
    by_cases hk : q.1 = k
    · rw [List.find?_cons_of_pos _ (by simp only [hql]; simp [hk]),
        List.find?_cons_of_pos _ (by simp [hk])]
      rfl
    · rw [List.find?_cons_of_neg _ (by simp only [hql]; simp [hk]),
        List.find?_cons_of_neg _ (by simp [hk])]
      exact ih

theorem find_isSome_filter_ne (l : List (FlightKey × List CallerId))
    {k k' : FlightKey} (hne : k' ≠ k) :
    ((l.filter (fun q => !decide (q.1 = k))).find?
        (fun p => decide (p.1 = k'))).isSome
      = (l.find? (fun p => decide (p.1 = k'))).isSome := by
  induction l with
  | nil => rfl
  | cons q rest ih =>
    by_cases hqk : q.1 = k
    · have hqk' : ¬(q.1 = k') := by
        rw [hqk]
        exact fun h => hne h.symm
      rw [List.filter_cons_of_neg (by simp [hqk]),
        List.find?_cons_of_neg _ (by simp [hqk'])]
      exact ih
    · rw [List.filter_cons_of_pos (by simp [hqk])]
      by_cases hq' : q.1 = k'
      · rw [List.find?_cons_of_pos _ (by simp [hq']),
          List.find?_cons_of_pos _ (by simp [hq'])]
      · rw [List.find?_cons_of_neg _ (by simp [hq']),
          List.find?_cons_of_neg _ (by simp [hq'])]
        exact ih

theorem find_filter_self (l : List (FlightKey × List CallerId)) (k : FlightKey) :
    (l.filter (fun q => !decide (q.1 = k))).find? (fun p => decide (p.1 = k))
      = none := by
  rw [List.find?_eq_none]
  intro x hx
  have hpred := List.of_mem_filter hx
  simp at hpred ⊢
  exact hpred

theorem flightStep_inv (thr : ℚ) (s : FlightState) (e : FlightEvent)
    (h : FlightInv s) : FlightInv (flightStep thr s e) := by
  obtain ⟨h1, h2, h3⟩ := h
  cases e with
  | call c emb =>
    by_cases hf :
        (s.inflight.find? (fun p => decide (p.1 = quantize emb thr))).isSome = true
    · simp only [flightStep, if_pos hf]
      refine ⟨?_, ?_, ?_⟩
      · rw [List.pairwise_map]
        have hfst : ∀ p : FlightKey × List CallerId,
            (if p.1 = quantize emb thr then (p.1, c :: p.2) else p).1 = p.1 := by
          intro p
          by_cases hp : p.1 = quantize emb thr <;> simp [hp]
        exact h1.imp (fun hab => by rw [hfst, hfst]; exact hab)
      · intro k
        rw [find_isSome_map_fst]
        exact h2 k
      · exact h3
    · simp only [flightStep, if_neg hf]
      have hnone :
          s.inflight.find? (fun p => decide (p.1 = quantize emb thr)) = none := by
        cases hfind : s.inflight.find? (fun p => decide (p.1 = quantize emb thr)) with
        | none => rfl
        | some v =>
          rw [hfind] at hf
          simp at hf
      refine ⟨?_, ?_, ?_⟩
      · rw [List.pairwise_cons]
        refine ⟨?_, h1⟩
        intro q hq
        have hq' := List.find?_eq_none.mp hnone q hq
        simp at hq'
        exact fun heq => hq' heq.symm
      · intro k
        by_cases hk : quantize emb thr = k
        · subst hk
          have hold := h2 (quantize emb thr)
          rw [hnone] at hold
          simp only [Option.isSome_none, Bool.false_eq_true, if_false,
            Nat.add_zero] at hold
          rw [List.countP_cons, List.find?_cons_of_pos _ (by simp)]
          simp [hold]
        · have hold := h2 k
          rw [List.countP_cons, List.find?_cons_of_neg _ (by simp [hk])]
          simp [hk, hold]
      · exact h3
  | finish k r =>
    cases hfind : s.inflight.find? (fun p => decide (p.1 = k)) with
    | none =>
      simp only [flightStep, hfind]
      exact ⟨h1, h2, h3⟩
    | some p =>
      simp only [flightStep, hfind]
      refine ⟨?_, ?_, ?_⟩
      · exact List.Pairwise.sublist (List.filter_sublist _) h1
      · intro k'
        by_cases hk' : k' = k
        · subst hk'
          rw [find_filter_self]
          have hold := h2 k'
          rw [hfind] at hold
          simp at hold
          simp [List.filter_cons, hold]
        · rw [find_isSome_filter_ne _ hk']
          have hold := h2 k'
          have hkk : ¬(k = k') := fun hh => hk' hh.symm
          simp [List.filter_cons, hkk, hold]
      · intro w hw c hc
        rcases List.mem_cons.mp hw with hw1 | hw2
        · subst hw1
          exact List.mem_append_left _ (List.mem_map.mpr ⟨c, hc, rfl⟩)
        · exact List.mem_append_right _ (h3 w hw2 c hc)

theorem runFlight_inv (thr : ℚ) (evs : List FlightEvent) :
    FlightInv (runFlight thr evs) := by
  have hgen : ∀ s, FlightInv s → FlightInv (evs.foldl (flightStep thr) s) := by
    induction evs with
    | nil => exact fun s hs => hs
    | cons e rest ih => exact fun s hs => ih _ (flightStep_inv thr s e hs)
  refine hgen emptyFlightState ⟨?_, ?_, ?_⟩
  · simp [emptyFlightState]
  · intro k
    simp [emptyFlightState, List.find?]
  · intro w hw
    simp [emptyFlightState] at hw

/-- C2: in every interleaved execution of the single-flight protocol, a call
whose quantized key is already in flight launches no new compute; each key's
compute log counts exactly one invocation per completed computation plus one
for its currently open window (so concurrent equivalent calls share a single
compute); and every caller awaiting a completed computation received that
computation's single result — the identical result or error for all of them. -/
theorem C2_single_flight (thr : ℚ) (evs : List FlightEvent) (k : FlightKey) :
    (∀ s c emb,
      ((s : FlightState).inflight.find?
          (fun p => decide (p.1 = quantize emb thr))).isSome = true →
      (flightStep thr s (FlightEvent.call c emb)).computeLog = s.computeLog) ∧
    ((runFlight thr evs).computeLog.countP (fun x => decide (x = k))
        = ((runFlight thr evs).completed.filter
            (fun w => decide (w.key = k))).length
          + (if ((runFlight thr evs).inflight.find?
                (fun p => decide (p.1 = k))).isSome then 1 else 0)) ∧
    (∀ w ∈ (runFlight thr evs).completed, ∀ c ∈ w.waiters,
      (c, w.result) ∈ (runFlight thr evs).delivered) := by
  obtain ⟨_, h2, h3⟩ := runFlight_inv thr evs
  refine ⟨?_, h2 k, h3⟩
  intro s c emb hf
  simp [flightStep, hf]

/-- Witness for C2: two concurrent callers with the same (empty-embedding) key
and one completion; both callers received the identical result. -/
theorem C2_single_flight_witness :
    ((1 : CallerId), (Except.ok "r" : Except String String)) ∈
      (runFlight 1 [FlightEvent.call 1 [], FlightEvent.call 2 [],
        FlightEvent.finish [] (Except.ok "r")]).delivered :=
  (C2_single_flight 1
      [FlightEvent.call 1 [], FlightEvent.call 2 [],
        FlightEvent.finish [] (Except.ok "r")] []).2.2
    ⟨[], Except.ok "r", [2, 1]⟩ (by decide) 1 (by decide)

/-! ## Claim theorems: frontend handlers -/

/-- C9: the analyze proxy never throws to its caller — for a non-ok backend
response it forwards the backend's status with a JSON error message containing
the backend's status code and response text; when the fetch or body parsing
throws (or the request body fails to parse) it answers 500 with error
'Analysis failed'; otherwise it forwards the backend's JSON body with
status 200. -/
theorem C9_analyze_proxy (reqJson : Option String) (outcome : FetchOutcome) :
    (∀ r, outcome = FetchOutcome.resolved r → respOk r = false →
      ∀ j, reqJson = some j →
      analyzePOST reqJson outcome
        = ⟨r.status, ProxyBody.jsonError
            ("Backend error " ++ toString r.status ++ ": "
              ++ (if r.text = "" then "no body" else r.text))⟩ ∧
      (∃ s t, ("Backend error " ++ toString r.status ++ ": "
          ++ (if r.text = "" then "no body" else r.text))
          = s ++ toString r.status ++ t) ∧
      (∃ u v, ("Backend error " ++ toString r.status ++ ": "
          ++ (if r.text = "" then "no body" else r.text)) = u ++ r.text ++ v)) ∧
    ((reqJson = none ∨ outcome = FetchOutcome.threw ∨
        (∃ r, outcome = FetchOutcome.resolved r ∧ respOk r = true ∧
          r.json = none)) →
      analyzePOST reqJson outcome = ⟨500, ProxyBody.jsonError "Analysis failed"⟩) ∧
    (∀ r d j, reqJson = some j → outcome = FetchOutcome.resolved r →
      respOk r = true → r.json = some d →
      analyzePOST reqJson outcome = ⟨200, ProxyBody.jsonData d⟩) := by
  refine ⟨?_, ?_, ?_⟩
  · rintro r rfl hok j rfl
    refine ⟨by simp [analyzePOST, hok], ?_, ?_⟩
    · refine ⟨"Backend error ", ": " ++ (if r.text = "" then "no body" else r.text), ?_⟩
      simp [String.append_assoc]
    · by_cases ht : r.text = ""
      · refine ⟨"Backend error " ++ toString r.status ++ ": "
          ++ (if r.text = "" then "no body" else r.text), "", ?_⟩
        simp [ht]
      · refine ⟨"Backend error " ++ toString r.status ++ ": ", "", ?_⟩
        simp [ht, String.append_assoc]
  · rintro (rfl | rfl | ⟨r, rfl, hok, hj⟩)
    · rfl
    · cases reqJson <;> rfl
    · cases reqJson <;> simp [analyzePOST, hok, hj]
  · rintro r d j rfl rfl hok hj
    simp [analyzePOST, hok, hj]

/-- Witness for C9: a backend 502 with body text 'boom' is forwarded with
status 502 and the composed error message. -/
theorem C9_analyze_proxy_witness :
    analyzePOST (some "body") (FetchOutcome.resolved ⟨502, "boom", none⟩)
      = ⟨502, ProxyBody.jsonError
          ("Backend error " ++ toString (502 : Nat) ++ ": "
            ++ (if ("boom" : String) = "" then "no body" else "boom"))⟩ :=
  ((C9_analyze_proxy (some "body")
      (FetchOutcome.resolved ⟨502, "boom", none⟩)).1
    ⟨502, "boom", none⟩ rfl (by decide) "body" rfl).1

theorem captureStep_inv (s : CaptureState) (e : CaptureEvent)
    (h : CaptureInv s) : CaptureInv (captureStep s e).1 := by
  obtain ⟨h1, h2⟩ := h
  cases e with
  | startCapture =>
    by_cases hc : s.isRecording = false ∧ s.validationStep ≠ ValidationStep.complete
    · simp only [captureStep, if_pos hc]
      exact ⟨fun _ => hc.2, h2⟩
    · simp only [captureStep, if_neg hc]
      exact ⟨h1, h2⟩
  | stopCapture blob respOkFlag =>
    by_cases hr : s.isRecording = true
    · simp only [captureStep, if_pos hr]
      by_cases hi : s.validationStep = ValidationStep.initial
      · simp only [analyzeMedia, hi, if_pos rfl]
        exact ⟨by simp, by simp⟩
      · have hs' : ({ s with isRecording := false } : CaptureState).validationStep
            = s.validationStep := rfl
        simp only [analyzeMedia, hs', if_neg hi]
        refine ⟨by simp, ?_⟩
        intro hconf
        by_cases hok : respOkFlag = true
        · rw [hok] at hconf
          simp at hconf
        · have hok' : respOkFlag = false := by
            cases respOkFlag
            · rfl
            · exact absurd rfl hok
          rw [hok'] at hconf
          simp at hconf
          exact h2 hconf
    · simp only [captureStep, if_neg hr]
      exact ⟨h1, h2⟩
  | reset =>
    by_cases hc : s.validationStep = ValidationStep.confirmation ∨
        s.validationStep = ValidationStep.complete
    · simp only [captureStep, if_pos hc]
      exact ⟨by simp, by simp⟩
    · simp only [captureStep, if_neg hc]
      exact ⟨h1, h2⟩

theorem captureStep_log (s : CaptureState) (e : CaptureEvent)
    (h : CaptureInv s) :
    ∀ pre req, (captureStep s e).2 = some (pre, req) →
      pre.validationStep = ValidationStep.confirmation ∧
      req.first_capture = pre.firstCaptureData ∧
      req.first_capture.isSome = true ∧
      req.validation_step = "confirmation" := by
  obtain ⟨h1, h2⟩ := h
  intro pre req hlog
  cases e with
  | startCapture =>
    by_cases hc : s.isRecording = false ∧ s.validationStep ≠ ValidationStep.complete <;>
      simp [captureStep, hc] at hlog
  | stopCapture blob respOkFlag =>
    by_cases hr : s.isRecording = true
    · simp only [captureStep, if_pos hr] at hlog
      by_cases hi : s.validationStep = ValidationStep.initial
      · simp [analyzeMedia, hi] at hlog
      · have hs' : ({ s with isRecording := false } : CaptureState).validationStep
            = s.validationStep := rfl
        simp only [analyzeMedia, hs', if_neg hi, Option.map_some,
          Option.some.injEq, Prod.mk.injEq] at hlog
        have hnc : s.validationStep ≠ ValidationStep.complete := h1 hr
        have hconf : s.validationStep = ValidationStep.confirmation := by
          cases hv : s.validationStep
          · exact absurd hv hi
          · rfl
          · exact absurd hv hnc
        obtain ⟨hpre, hreq⟩ := hlog
        exact ⟨hconf, rfl, h2 hconf, rfl⟩
    · simp [captureStep, hr] at hlog
  | reset =>
    by_cases hc : s.validationStep = ValidationStep.confirmation ∨
        s.validationStep = ValidationStep.complete <;>
      simp [captureStep, hc] at hlog

theorem runCapture_log (evs : List CaptureEvent) :
    ∀ s : CaptureState, CaptureInv s →
      ∀ pre req, (pre, req) ∈ (runCapture s evs).2 →
        pre.validationStep = ValidationStep.confirmation ∧
        req.first_capture = pre.firstCaptureData ∧
        req.first_capture.isSome = true ∧
        req.validation_step = "confirmation" := by
  induction evs with
  | nil =>
    intro s _ pre req hmem
    simp [runCapture] at hmem
  | cons e rest ih =>
    intro s hs pre req hmem
    simp only [runCapture] at hmem
    rcases List.mem_append.mp hmem with hm | hm
    · cases hopt : (captureStep s e).2 with
      | none =>
        rw [hopt] at hm
        simp at hm
      | some pr =>
        rw [hopt] at hm
        simp at hm
        have := captureStep_log s e hs pre req
        rw [hopt] at this
        exact this (by rw [hm])
    · exact ih (captureStep s e).1 (captureStep_inv s e hs) pre req hm

/-- C10: in the capture page's two-step flow, a call to `analyzeMedia` while
`validationStep` is 'initial' issues no network request — it stores the
capture as `firstCaptureData`, sets the step to 'confirmation' and returns —
and every POST to `/api/analyze` issued over any event sequence happens on a
call made while `validationStep` is 'confirmation', carrying the stored
`first_capture`. -/
theorem C10_two_step_validation (blob : String) (respOkFlag : Bool)
    (s : CaptureState) (evs : List CaptureEvent) :
    (s.validationStep = ValidationStep.initial →
      analyzeMedia s blob respOkFlag
        = ({ s with
              firstCaptureData := some ⟨blob, blob⟩,
              validationStep := ValidationStep.confirmation }, none)) ∧
    (∀ pre req, (pre, req) ∈ (runCapture initialCaptureState evs).2 →
      pre.validationStep = ValidationStep.confirmation ∧
      req.first_capture = pre.firstCaptureData ∧
      req.first_capture.isSome = true ∧
      req.validation_step = "confirmation") := by
  constructor
  · intro hi
    simp [analyzeMedia, hi]
  · exact runCapture_log evs initialCaptureState
      ⟨by simp [initialCaptureState], by simp [initialCaptureState]⟩

/-- Witness for C10: a first capture in step 'initial' stores the data, moves
to 'confirmation' and issues no request; and the two-capture trace issues its
single request from step 'confirmation' with the stored first capture. -/
theorem C10_two_step_validation_witness :
    analyzeMedia ⟨false, ValidationStep.initial, none⟩ "vid" true
      = (⟨false, ValidationStep.confirmation, some ⟨"vid", "vid"⟩⟩, none) :=
  (C10_two_step_validation "vid" true ⟨false, ValidationStep.initial, none⟩ []).1
    rfl

end VeriShield
